import Mathlib

/-
  Verification development for the EdgeTX rs-dfu repository.

  Shallow embedding of the DfuSe memory-layout model and parser
  (src/dfu/src/memory.rs), the UF2 block codec (src/uf2/src/lib.rs), the
  UF2 range iterator (src/uf2/src/iter.rs) and the DFU connection command
  sequencing (src/dfu/src/connection.rs).

  Conventions:
  - Rust `u32` values are `Nat` with an explicit `% 2^32` at every Rust
    u32 addition or multiplication (two's-complement wrapping semantics).
  - Rust panics (`unwrap` of `None`, out-of-range slice indexing) are
    modelled as `Option.none` on the function's result; `some` carries the
    non-panicking outcome.
  - Byte buffers are `List Nat` (each entry a byte value).
  - Rust regex digit/whitespace classes (Unicode `\p{Nd}` and
    `White_Space` in the regex crate) are modelled by their ASCII
    restrictions, on which the model is exact; universally quantified
    theorems whose truth depends on the absence of regex matches carry
    an explicit ASCII hypothesis, while concrete evaluations use ASCII
    inputs only.
-/

/-- 2^32, the modulus of Rust `u32` arithmetic. -/
def U32M : Nat := 4294967296

/-- `u32::div_ceil` for a positive divisor (all uses in the source are
guarded by a positive page size). -/
def divCeil (a b : Nat) : Nat := (a + b - 1) / b

/-- `DfuMemSegment` from src/dfu/src/memory.rs. -/
structure DfuMemSegment where
  start_addr : Nat
  end_addr : Nat
  page_size : Nat
  mem_type : Nat
deriving DecidableEq

/-- `DfuMemSegment::pages`. -/
def DfuMemSegment.pages (s : DfuMemSegment) : Nat :=
  (s.end_addr - s.start_addr) / s.page_size

/-- `DfuMemSegment::is_contained_in`. -/
def DfuMemSegment.is_contained_in (s : DfuMemSegment) (start_addr end_addr : Nat) : Prop :=
  start_addr ≤ s.start_addr ∧ s.end_addr ≤ end_addr

instance (s : DfuMemSegment) (a b : Nat) : Decidable (s.is_contained_in a b) :=
  inferInstanceAs (Decidable (_ ∧ _))

/-- `DfuMemSegment::contains`: `addr >= self.start_addr && addr <= self.end_addr`. -/
def DfuMemSegment.contains (s : DfuMemSegment) (addr : Nat) : Prop :=
  s.start_addr ≤ addr ∧ addr ≤ s.end_addr

instance (s : DfuMemSegment) (a : Nat) : Decidable (s.contains a) :=
  inferInstanceAs (Decidable (_ ∧ _))

/-- `DfuMemSegment::get_erase_pages`: clip the request to the segment and
return `(erase_start, page_count)` with `page_count = div_ceil`. -/
def DfuMemSegment.get_erase_pages (s : DfuMemSegment) (start_addr end_addr : Nat) : Nat × Nat :=
  (max start_addr s.start_addr,
   divCeil (min end_addr s.end_addr - max start_addr s.start_addr) s.page_size)

/-- `DfuMemSegment::readable`: `mem_type & 1 == 1`. -/
def DfuMemSegment.readable (s : DfuMemSegment) : Prop := s.mem_type &&& 1 = 1

instance (s : DfuMemSegment) : Decidable s.readable :=
  inferInstanceAs (Decidable (_ = _))

/-- `DfuMemSegment::erasable`: `mem_type & 2 == 2`. -/
def DfuMemSegment.erasable (s : DfuMemSegment) : Prop := s.mem_type &&& 2 = 2

instance (s : DfuMemSegment) : Decidable s.erasable :=
  inferInstanceAs (Decidable (_ = _))

/-- `DfuMemSegment::writable`: `mem_type & 4 == 4`. -/
def DfuMemSegment.writable (s : DfuMemSegment) : Prop := s.mem_type &&& 4 = 4

instance (s : DfuMemSegment) : Decidable s.writable :=
  inferInstanceAs (Decidable (_ = _))

/-- `DfuMemory` from src/dfu/src/memory.rs; the `NonEmpty` segment vector
is a plain list here, and `parse_memory_layout` below returns `none` when
it is empty (mirroring `NonEmpty::from_vec`). -/
structure DfuMemory where
  name : String
  segments : List DfuMemSegment
deriving DecidableEq

/-- `DfuMemory::find_segments`: keep, in layout order, the segments that
contain `start_address`, contain `end_address`, or are contained in the
requested range. -/
def DfuMemory.find_segments (m : DfuMemory) (start_address end_address : Nat) :
    List DfuMemSegment :=
  m.segments.filter fun s =>
    decide (s.contains start_address ∨ s.contains end_address ∨
      s.is_contained_in start_address end_address)

/-- Round an address down to a page boundary of the segment (page
boundaries are `start_addr + k * page_size`). -/
def DfuMemSegment.alignDown (s : DfuMemSegment) (a : Nat) : Nat :=
  s.start_addr + ((a - s.start_addr) / s.page_size) * s.page_size

/-- Per-segment erase page addresses, combining the in-source
`DfuMemSegment::get_erase_pages` pair with the page-boundary rounding that
the spec mandates for the layout-wide helper. -/
def DfuMemSegment.erasePageAddrs (s : DfuMemSegment) (start_addr end_addr : Nat) :
    List Nat :=
  let p := s.get_erase_pages start_addr end_addr
  (List.range p.2).map fun i => s.alignDown p.1 + i * s.page_size

/-- Modelled from the spec: the layout-wide `get_erase_pages(start, end) -> Vec<u32>`
is called from src/src/lib.rs (`intf.get_erase_pages`, line 221) and
src/cli/src/write.rs (line 60) but its definition is not under src/.
Spec section 4.D: within each overlapping segment, clip the range to the
segment, then emit `ceil((clip_end − clip_start) / page_size)` pages
starting at `max(start, segment.start)` rounded down to a page boundary;
pages across adjacent segments concatenate in order. -/
def DfuMemory.get_erase_pages (m : DfuMemory) (start_addr end_addr : Nat) : List Nat :=
  ((m.find_segments start_addr end_addr).map
    fun s => s.erasePageAddrs start_addr end_addr).flatten

/-
  String-level embedding of `parse_memory_layout` (src/dfu/src/memory.rs,
  lines 84-124).  The outer regex is `@?([^/]*?)\s*/0x([\da-fA-F]+)U?/(.*)`
  searched (unanchored, leftmost-first) over the string; the segment regex
  is `(\d+)\*(\d+)([KMB ])([a-g])(?:,|$)` iterated over capture 3.
-/

/-- The regex class `\d` restricted to ASCII.  The Rust regex crate's
`\d` is the Unicode decimal-digit category `\p{Nd}`; this embedding
models its restriction to ASCII, and is exact on ASCII strings (on which
`\p{Nd}` coincides with `0-9`).  Theorems whose truth depends on the
absence of matches therefore carry an explicit ASCII hypothesis. -/
def isDigitC (c : Char) : Bool := 48 ≤ c.toNat && c.toNat ≤ 57

/-- The regex class `[\da-fA-F]` restricted to ASCII (see `isDigitC` for
the Unicode caveat on `\d`). -/
def isHexDigitC (c : Char) : Bool :=
  isDigitC c || (97 ≤ c.toNat && c.toNat ≤ 102) || (65 ≤ c.toNat && c.toNat ≤ 70)

/-- The regex class `\s` restricted to ASCII, where it is exactly
`0x09-0x0D` and space. -/
def isSpaceC (c : Char) : Bool :=
  c = ' ' || c = '\t' || c = '\n' || c = '\r' || c.toNat = 11 || c.toNat = 12

/-- Value of one hex digit. -/
def hexDigitVal (c : Char) : Nat :=
  if isDigitC c then c.toNat - 48
  else if 97 ≤ c.toNat then c.toNat - 87
  else c.toNat - 55

/-- `u32::from_str_radix(s, 16).unwrap_or(0)`: the exact value when it
fits in a u32, otherwise 0 (overflow makes `from_str_radix` return `Err`). -/
def parseHexU32 (ds : List Char) : Nat :=
  let v := ds.foldl (fun a c => a * 16 + hexDigitVal c) 0
  if v < U32M then v else 0

/-- `str::parse::<u32>().unwrap_or(0)`: the exact value when it fits in a
u32, otherwise 0. -/
def parseDecU32 (ds : List Char) : Nat :=
  let v := ds.foldl (fun a c => a * 10 + (c.toNat - 48)) 0
  if v < U32M then v else 0

/-- Match the skeleton `/0x([\da-fA-F]+)U?/` at the head of the list,
returning the hex capture and the characters after the closing slash.
The hex run is maximal (a shorter run would leave a hex digit where `U?/`
must match, so the regex engine never backtracks into it). -/
def matchSkeleton : List Char → Option (List Char × List Char)
  | '/' :: '0' :: 'x' :: t =>
    let hex := t.takeWhile isHexDigitC
    if hex.isEmpty then none
    else
      match t.dropWhile isHexDigitC with
      | '/' :: r => some (hex, r)
      | 'U' :: '/' :: r => some (hex, r)
      | _ => none
  | _ => none

/-- Leftmost occurrence of the skeleton: returns the characters strictly
before it (in order), the hex capture, and the characters after it. -/
def findSkeleton : List Char → List Char → Option (List Char × List Char × List Char)
  | _, [] => none
  | acc, c :: t =>
    match matchSkeleton (c :: t) with
    | some (hex, rest) => some (acc.reverse, hex, rest)
    | none => findSkeleton (c :: acc) t

/-- Capture 1 of the outer regex.  The match starts right after the last
`/` preceding the skeleton (`@?` and `[^/]*?` cannot cross a slash), `@?`
consumes one leading `@`, and the greedy `\s*` absorbs the maximal
whitespace run right before the skeleton. -/
def layoutName (pre : List Char) : String :=
  let region := (pre.reverse.takeWhile (fun c => c ≠ '/')).reverse
  let noAt := match region with
    | '@' :: t => t
    | t => t
  ⟨(noAt.reverse.dropWhile isSpaceC).reverse⟩

/-- One raw segment descriptor captured by the segment regex:
pages digits, size digits, unit character, type character. -/
structure RawSeg where
  pagesDigits : List Char
  sizeDigits : List Char
  unitChar : Char
  typeChar : Char
deriving DecidableEq

/-- Match the segment regex `(\d+)\*(\d+)([KMB ])([a-g])(?:,|$)` at the
head of the list; both digit runs are maximal (the following literal is
never a digit, so no backtracking into them succeeds).  Returns the
captures and the characters after the match (the `,` is consumed). -/
def segMatchAt (l : List Char) : Option (RawSeg × List Char) :=
  let d1 := l.takeWhile isDigitC
  if d1.isEmpty then none
  else
    match l.dropWhile isDigitC with
    | '*' :: r2 =>
      let d2 := r2.takeWhile isDigitC
      if d2.isEmpty then none
      else
        match r2.dropWhile isDigitC with
        | mu :: ty :: r5 =>
          if mu = 'K' || mu = 'M' || mu = 'B' || mu = ' ' then
            if 97 ≤ ty.toNat && ty.toNat ≤ 103 then
              match r5 with
              | [] => some (⟨d1, d2, mu, ty⟩, [])
              | ',' :: r6 => some (⟨d1, d2, mu, ty⟩, r6)
              | _ => none
            else none
          else none
        | _ => none
    | _ => none

/-- `captures_iter` of the segment regex: scan left to right, restarting
one character later after a failed position and after the end of each
match.  Fuel-driven (fuel bounds the number of scan steps; the initial
fuel `l.length` is always sufficient because every step consumes at least
one character). -/
def scanSegAux : Nat → List Char → List RawSeg
  | 0, _ => []
  | _, [] => []
  | fuel + 1, c :: t =>
    match segMatchAt (c :: t) with
    | some (v, r) => v :: scanSegAux fuel r
    | none => scanSegAux fuel t

/-- All matches of the segment regex over a string. -/
def scanSegments (l : List Char) : List RawSeg := scanSegAux l.length l

/-- Page size of a raw segment: decimal parse then the `K`/`M`/`B`/space
multiplier, with u32 wrapping multiplication. -/
def RawSeg.pageSize (v : RawSeg) : Nat :=
  let ps := parseDecU32 v.sizeDigits
  if v.unitChar = 'K' then ps * 1024 % U32M
  else if v.unitChar = 'M' then ps * (1024 * 1024) % U32M
  else ps

/-- Number of pages of a raw segment. -/
def RawSeg.pagesCount (v : RawSeg) : Nat := parseDecU32 v.pagesDigits

/-- `(seg_match[4].chars().next().unwrap_or('a') as u8) & 7`. -/
def memTypeOfChar (c : Char) : Nat := c.toNat % 256 &&& 7

/-- The segment-accumulation loop of `parse_memory_layout`: each segment
starts at the running address and ends at `current + pages * page_size`
(u32 wrapping), which becomes the next segment's start. -/
def buildSegments (cur : Nat) : List RawSeg → List DfuMemSegment
  | [] => []
  | v :: vs =>
    let e := (cur + v.pagesCount * v.pageSize % U32M) % U32M
    ⟨cur, e, v.pageSize, memTypeOfChar v.typeChar⟩ :: buildSegments e vs

/-- `parse_memory_layout` (src/dfu/src/memory.rs, lines 84-124). -/
def parse_memory_layout (s : String) : Option DfuMemory :=
  match findSkeleton [] s.data with
  | none => none
  | some (pre, hex, rest0) =>
    let name := layoutName pre
    let start_addr := parseHexU32 hex
    let rest := rest0.takeWhile (fun c => c ≠ '\n')
    let segs := buildSegments start_addr (scanSegments rest)
    match segs with
    | [] => none
    | s0 :: tl => some ⟨name, s0 :: tl⟩

/-- The base address captured by the outer regex, when it matches. -/
def parsedBaseAddr (s : String) : Option Nat :=
  (findSkeleton [] s.data).map fun x => parseHexU32 x.2.1

/-
  Embedding of the UF2 block codec (src/uf2/src/lib.rs) and the range
  iterator (src/uf2/src/iter.rs).  `Option.none` on a result models a
  Rust panic (out-of-range slice indexing, `unwrap` of `None`).
-/

/-- `UF2Extension` from src/uf2/src/lib.rs. -/
structure UF2Extension where
  tag : Nat
  payload : List Nat
deriving DecidableEq

/-- `UF2DecodeError` from src/uf2/src/lib.rs. -/
structure UF2DecodeError where
  err : String
deriving DecidableEq

deriving instance DecidableEq for Except

/-- `UF2BlockData` from src/uf2/src/lib.rs (the `UF2Flags` newtype is
inlined as the raw `flags` word). -/
structure UF2BlockData where
  flags : Nat
  flash_address : Nat
  block_nr : Nat
  total_blocks : Nat
  file_size : Nat
  payload : List Nat
  extensions : List UF2Extension
deriving DecidableEq

/-- `extract_u32`: little-endian u32 at `offset`.  Callers are responsible
for bounds (the default 0 never fires on the in-bounds reads the source
performs; out-of-bounds reads are modelled as panics at the call sites). -/
def extract_u32 (data : List Nat) (offset : Nat) : Nat :=
  data.getD offset 0 + 256 * (data.getD (offset + 1) 0 +
    256 * (data.getD (offset + 2) 0 + 256 * data.getD (offset + 3) 0))

/-- `check_magic`: every `(offset, magic)` pair is in bounds and matches. -/
def check_magic (magics : List (Nat × Nat)) (data : List Nat) : Bool :=
  magics.all fun om => decide (om.1 + 4 ≤ data.length) &&
    decide (om.2 = extract_u32 data om.1)

/-- `UF2_MAGIC_VALUES`. -/
def UF2_MAGIC_VALUES : List (Nat × Nat) :=
  [(0, 0x0a324655), (4, 0x9e5d5157), (508, 0x0ab16f30)]

/-- `is_uf2_block`. -/
def is_uf2_block (data : List Nat) : Bool := check_magic UF2_MAGIC_VALUES data

/-- `is_uf2_payload`: only the first magic is checked. -/
def is_uf2_payload (data : List Nat) : Bool :=
  check_magic (UF2_MAGIC_VALUES.take 1) data

/-- `pad32`. -/
def pad32 (n : Nat) : Nat := if n % 4 > 0 then n + 4 - n % 4 else n

/-- The `while offset < data.len()` loop of `decode_extensions`.  `none`
models a panic: `extract_u32` reads `data[offset..offset+4]` without a
bounds check, and the payload slice `data[offset+4..offset+length]`
panics when `length < 4` (start beyond end) or `offset+length` exceeds
the slice.  Fuel-driven; the initial fuel `data.length + 1` is always
sufficient because the offset advances by at least 4 per iteration. -/
def decodeExtLoop (data : List Nat) : Nat → Nat → Option (List UF2Extension)
  | 0, _ => none
  | fuel + 1, offset =>
    if offset < data.length then
      if data.length < offset + 4 then none
      else
        let hdr := extract_u32 data offset
        if hdr = 0 then some []
        else
          let len := hdr &&& 0xff
          let tag := (hdr >>> 8) &&& 0xffffff
          if len < 4 then none
          else if data.length < offset + len then none
          else
            match decodeExtLoop data fuel (offset + pad32 len) with
            | none => none
            | some rest =>
              some (⟨tag, (data.drop (offset + 4)).take (len - 4)⟩ :: rest)
    else some []

/-- `decode_extensions`: scans the extension area only when flag bit
`0x8000` (`EXTENSION_TAGS_PRESENT`) is set. -/
def decode_extensions (flags : Nat) (data : List Nat) : Option (List UF2Extension) :=
  if flags &&& 0x8000 ≠ 0 then decodeExtLoop data (data.length + 1) 0
  else some []

/-- `UF2_MAX_PAYLOAD_SIZE = UF2_BLOCK_SIZE - UF2_HEADER_SIZE = 512 - 32`
(the source constant is 480, not the 476 the spec quotes). -/
def UF2_MAX_PAYLOAD_SIZE : Nat := 512 - 32

/-- `UF2BlockData::decode`.  `some (Except.error e)` is
`Err(UF2DecodeError)`, `some (Except.ok b)` is `Ok(b)`, `none` is a
panic.  The oversize check compares against `UF2_MAX_PAYLOAD_SIZE` (480);
the payload slice `data[32 .. 32+payload_size]` is then always in bounds
(`is_uf2_block` guarantees `data.len() >= 512`), but the extension slice
`data[(32+payload_size) .. data.len()-4]` panics when its start exceeds
its end — on a 512-byte block that is every `payload_size` in 477..480 —
and `decode_extensions` can panic on a malformed extension area. -/
def UF2BlockData.decode (data : List Nat) : Option (Except UF2DecodeError UF2BlockData) :=
  if ¬ is_uf2_block data then
    some (Except.error ⟨"magic values check failed"⟩)
  else
    let flags := extract_u32 data 8
    let payload_size := extract_u32 data 16
    if payload_size > UF2_MAX_PAYLOAD_SIZE then
      some (Except.error ⟨"payload size too big (" ++ toString payload_size ++ ")"⟩)
    else
      let payload := (data.drop 32).take payload_size
      if data.length - 4 < 32 + payload_size then none
      else
        let ext_area := (data.drop (32 + payload_size)).take (data.length - 4 - (32 + payload_size))
        match decode_extensions flags ext_area with
        | none => none
        | some exts =>
          some (Except.ok ⟨flags, extract_u32 data 12, extract_u32 data 20,
            extract_u32 data 24, extract_u32 data 28, payload, exts⟩)

/-- `REBOOT_EXTENSION_TAG`. -/
def REBOOT_EXTENSION_TAG : Nat := 0xe60835

/-- `UF2BlockData::get_reboot_address`: 4-byte little-endian payload of
the first `REBOOT` extension, `none` when absent or of another length. -/
def UF2BlockData.get_reboot_address (b : UF2BlockData) : Option Nat :=
  match b.extensions.find? (fun ext => ext.tag = REBOOT_EXTENSION_TAG) with
  | none => none
  | some ext =>
    if ext.payload.length = 4 then
      some (ext.payload.getD 0 0 + 256 * (ext.payload.getD 1 0 +
        256 * (ext.payload.getD 2 0 + 256 * ext.payload.getD 3 0)))
    else none

/-- `slice::chunks(512)`: consecutive 512-byte chunks, the last one
possibly shorter, none for the empty slice.  Fuel-driven; the initial
fuel `l.length` is always sufficient because every step drops at least
one element. -/
def chunksAux : Nat → List Nat → List (List Nat)
  | 0, _ => []
  | fuel + 1, l =>
    if l.isEmpty then []
    else l.take 512 :: chunksAux fuel (l.drop 512)

/-- The 512-byte block chunking of a byte buffer. -/
def uf2Chunks (l : List Nat) : List (List Nat) := chunksAux l.length l

/-- The mutable fields of `UF2RangeIterator` (the chunk iterator itself is
threaded separately). -/
structure IterState where
  start_address : Nat
  end_address : Nat
  payload : List Nat
  reboot_address : Option Nat
deriving DecidableEq

/-- `UF2AddressRange` from src/uf2/src/iter.rs. -/
structure UF2AddressRange where
  start_address : Nat
  payload : List Nat
  reboot_address : Option Nat
deriving DecidableEq

/-- `UF2RangeIterator::make_range` (the `take()` of the pending reboot
address is modelled as a plain read: every later emission overwrites the
whole state first, so the clearing is unobservable). -/
def IterState.make_range (st : IterState) : UF2AddressRange :=
  ⟨st.start_address, st.payload, st.reboot_address⟩

/-- `UF2RangeIterator::reset` seeded from a decoded block (u32 wrapping
on `flash_address + payload.len()`). -/
def resetState (b : UF2BlockData) : IterState :=
  ⟨b.flash_address, (b.flash_address + b.payload.length) % U32M,
   b.payload, b.get_reboot_address⟩

/-- `UF2RangeIterator::new`: reject the buffer unless every chunk passes
`is_uf2_block`, then decode the first chunk.  `none` is a panic: on the
empty buffer the chunk check passes vacuously and
`block_iter.next().unwrap()` unwraps `None` (or the first decode itself
panics). -/
def UF2RangeIterator.new (data : List Nat) : Option (Except UF2DecodeError IterState) :=
  if ¬ (uf2Chunks data).all is_uf2_block then
    some (Except.error ⟨"invalid UF2 block"⟩)
  else
    match uf2Chunks data with
    | [] => none
    | b :: _ =>
      match UF2BlockData.decode b with
      | none => none
      | some (Except.error e) => some (Except.error e)
      | some (Except.ok blk) => some (Except.ok (resetState blk))

/-- The complete iteration of `UF2RangeIterator::next` over the remaining
blocks: the list of all ranges the iterator yields.  A decode `Err` makes
`next` return `None` through `.ok()?` (iteration ends, the pending range
is dropped); a decode panic (`none`) aborts the whole run. -/
def runIter (st : IterState) : List (List Nat) → Option (List UF2AddressRange)
  | [] => some (if st.payload.isEmpty then [] else [st.make_range])
  | b :: bs =>
    match UF2BlockData.decode b with
    | none => none
    | some (Except.error _) => some []
    | some (Except.ok blk) =>
      if st.end_address ≠ blk.flash_address then
        match runIter (resetState blk) bs with
        | none => none
        | some rs => some (st.make_range :: rs)
      else
        runIter ⟨st.start_address, (st.end_address + blk.payload.length) % U32M,
          st.payload ++ blk.payload, st.reboot_address⟩ bs

/-- All ranges produced by iterating `UF2RangeIterator::new(data)` to
exhaustion. -/
def uf2Ranges (data : List Nat) : Option (Except UF2DecodeError (List UF2AddressRange)) :=
  match UF2RangeIterator.new data with
  | none => none
  | some (Except.error e) => some (Except.error e)
  | some (Except.ok st) =>
    match runIter st ((uf2Chunks data).drop 1) with
    | none => none
    | some rs => some (Except.ok rs)

/-- The payload slice `data[32 .. 32 + payload_size]` of a block. -/
def blockPayload (b : List Nat) : List Nat := (b.drop 32).take (extract_u32 b 16)

/-
  Embedding of the DFU connection command sequencing
  (src/dfu/src/connection.rs).  The USB transport and the wall-clock
  poll-until-idle loop are out-of-scope collaborators (spec section 1):
  one `dfu_dnload` (a `DFU_CMD_DOWNLOAD` control-out followed by
  poll-until-idle) is abstracted as a single step whose outcome is drawn
  from an environment `env : Nat → Option DfuError` giving the result of
  the i-th dnload issued on the connection (`none` = success).  The
  command log records `(wBlockNum, payload)` of every dnload issued, in
  order.
-/

/-- `DfuError` from src/dfu/src/error.rs (the `nusb` payloads of the two
transport variants are dropped). -/
inductive DfuError where
  | Usb
  | Transfer
  | Status (code : Nat)
  | UnalignedAddress
  | InvalidInterface
  | NoMemorySegments
  | Timeout
deriving DecidableEq

/-- The four little-endian bytes `addr as u8, (addr >> 8) as u8,
(addr >> 16) as u8, (addr >> 24) as u8`. -/
def le32 (addr : Nat) : List Nat :=
  [addr % 256, addr >>> 8 % 256, addr >>> 16 % 256, addr >>> 24 % 256]

/-- Count of dnloads issued so far plus the log of issued commands. -/
structure ConnTrace where
  idx : Nat
  log : List (Nat × List Nat)
deriving DecidableEq

/-- `DfuConnection::dfu_dnload(transaction, data)`: issue the command and
report the environment's outcome for this call. -/
def dfu_dnload (env : Nat → Option DfuError) (st : ConnTrace)
    (transaction : Nat) (data : List Nat) : Except DfuError Unit × ConnTrace :=
  ((match env st.idx with
    | none => Except.ok ()
    | some e => Except.error e),
   ⟨st.idx + 1, st.log ++ [(transaction, data)]⟩)

/-- `DfuConnection::dfuse_set_address(addr)`: DNLOAD wBlockNum 0 with
`[0x21, addr_le32]`. -/
def dfuse_set_address (env : Nat → Option DfuError) (st : ConnTrace)
    (addr : Nat) : Except DfuError Unit × ConnTrace :=
  dfu_dnload env st 0 (0x21 :: le32 addr)

/-- `DfuConnection::dfuse_page_erase(addr)`: DNLOAD wBlockNum 0 with
`[0x41, addr_le32]`. -/
def dfuse_page_erase (env : Nat → Option DfuError) (st : ConnTrace)
    (addr : Nat) : Except DfuError Unit × ConnTrace :=
  dfu_dnload env st 0 (0x41 :: le32 addr)

/-- `DfuConnection::download(addr, data)`: set the DfuSe address, then
DNLOAD wBlockNum 2 with the payload; the first error short-circuits. -/
def DfuConnection.download (env : Nat → Option DfuError) (st : ConnTrace)
    (addr : Nat) (data : List Nat) : Except DfuError Unit × ConnTrace :=
  match dfuse_set_address env st addr with
  | (Except.error e, st1) => (Except.error e, st1)
  | (Except.ok _, st1) => dfu_dnload env st1 2 data

/-- `DfuConnection::reboot(addr, data, reboot_addr)`: download, set the
reboot address, then a trailing empty DNLOAD wBlockNum 0 whose result is
discarded (`let _ = ...`). -/
def DfuConnection.reboot (env : Nat → Option DfuError) (st : ConnTrace)
    (addr : Nat) (data : List Nat) (reboot_addr : Nat) :
    Except DfuError Unit × ConnTrace :=
  match DfuConnection.download env st addr data with
  | (Except.error e, st1) => (Except.error e, st1)
  | (Except.ok _, st1) =>
    match dfuse_set_address env st1 reboot_addr with
    | (Except.error e, st2) => (Except.error e, st2)
    | (Except.ok _, st2) => (Except.ok (), (dfu_dnload env st2 0 []).2)

/-- `DfuConnection::leave`: a single trailing empty DNLOAD wBlockNum 0
whose result is discarded. -/
def DfuConnection.leave (env : Nat → Option DfuError) (st : ConnTrace) :
    Except DfuError Unit × ConnTrace :=
  (Except.ok (), (dfu_dnload env st 0 []).2)

/-
  Concrete input builders for witnesses and counterexamples.
-/

/-- Build a 512-byte UF2 block: the three magics, the given flags,
flash address and payload-size words, zero block counters, and the given
476-byte body (payload plus extension area, zero padded). -/
def mkUf2Block (flags addr payload_size : Nat) (body : List Nat) : List Nat :=
  [0x55, 0x46, 0x32, 0x0a] ++ [0x57, 0x51, 0x5d, 0x9e] ++
  le32 flags ++ le32 addr ++ le32 payload_size ++
  le32 0 ++ le32 0 ++ le32 0 ++
  (body.take 476 ++ List.replicate (476 - body.length) 0) ++
  [0x30, 0x6f, 0xb1, 0x0a]

/-
  Spec-grammar conformance checker (refinement comparison for the parser):
  this definition follows the words of spec section 4.C, not the source,
  and is used to state that the parser accepts inputs outside the grammar.
  `Layout = "@"? Name "/0x" Hex "U"? "/" SegList`, `Name` without `/`,
  `SegList = Segment ("," Segment)*`, `Segment = Dec "*" Dec Unit TypeChar`,
  `Unit = K | M | B | space`, `TypeChar = a..g`.
-/

/-- One grammar `Segment`; returns the remainder on success. -/
def specSegment (l : List Char) : Option (List Char) :=
  let d1 := l.takeWhile isDigitC
  if d1.isEmpty then none
  else
    match l.dropWhile isDigitC with
    | '*' :: r2 =>
      let d2 := r2.takeWhile isDigitC
      if d2.isEmpty then none
      else
        match r2.dropWhile isDigitC with
        | mu :: ty :: r5 =>
          if (mu = 'K' || mu = 'M' || mu = 'B' || mu = ' ') &&
              (97 ≤ ty.toNat && ty.toNat ≤ 103) then some r5
          else none
        | _ => none
    | _ => none

/-- Grammar `SegList`, consuming the whole remainder (fuel-driven; the
initial fuel `l.length` is always sufficient). -/
def specSegListAux : Nat → List Char → Bool
  | 0, _ => false
  | fuel + 1, l =>
    match specSegment l with
    | none => false
    | some [] => true
    | some (',' :: r) => specSegListAux fuel r
    | some _ => false

/-- Whole-string conformance to the spec grammar of section 4.C. -/
def specConforms (s : String) : Bool :=
  let l := match s.data with
    | '@' :: t => t
    | t => t
  match l.dropWhile (fun c => c ≠ '/') with
  | '/' :: '0' :: 'x' :: t =>
    let hex := t.takeWhile isHexDigitC
    if hex.isEmpty then false
    else
      match t.dropWhile isHexDigitC with
      | '/' :: r => specSegListAux r.length r
      | 'U' :: '/' :: r => specSegListAux r.length r
      | _ => false
  | _ => false

/-- The three-segment layout of spec scenario S3 (what
`parse_memory_layout("@Internal Flash  /0x08000000/04*016Kg,01*064Kg,07*128Kg")`
produces). -/
def layoutS3 : DfuMemory :=
  ⟨"Internal Flash",
   [⟨134217728, 134283264, 16384, 7⟩,
    ⟨134283264, 134348800, 65536, 7⟩,
    ⟨134348800, 135266304, 131072, 7⟩]⟩

/-- The single-segment layout of spec scenario S2. -/
def layoutS2 : DfuMemory :=
  ⟨"Internal Flash", [⟨134217728, 134283264, 8192, 7⟩]⟩

/-
  Claim theorems.
-/

/-- C1 (amended): `find_segments(start, end)` returns exactly the segments
satisfying the overlap test of the claim (contains `start`, contains
`end`, or lies inside `[start, end]`), in layout order, and no disjoint
segment; for every layout whose segments are in ascending start-address
order — which holds for every parsed layout free of u32 wrap-around —
the returned segments are in ascending address order. -/
theorem claim1_find_segments_overlap_ordered (m : DfuMemory) (a b : Nat)
    (hab : a ≤ b)
    (hsorted : List.Pairwise
      (fun s t : DfuMemSegment => s.start_addr ≤ t.start_addr) m.segments) :
    (∀ s ∈ m.find_segments a b,
      (s.start_addr ≤ a ∧ a ≤ s.end_addr) ∨
      (s.start_addr ≤ b ∧ b ≤ s.end_addr) ∨
      (a ≤ s.start_addr ∧ s.end_addr ≤ b)) ∧
    (∀ s ∈ m.segments,
      ((s.start_addr ≤ a ∧ a ≤ s.end_addr) ∨
       (s.start_addr ≤ b ∧ b ≤ s.end_addr) ∨
       (a ≤ s.start_addr ∧ s.end_addr ≤ b)) → s ∈ m.find_segments a b) ∧
    List.Pairwise (· ≤ ·) ((m.find_segments a b).map DfuMemSegment.start_addr) := by
  refine ⟨?_, ?_, ?_⟩
  · intro s hs
    have h := (List.mem_filter.1 hs).2
    simpa [DfuMemSegment.contains, DfuMemSegment.is_contained_in] using of_decide_eq_true h
  · intro s hs hov
    refine List.mem_filter.2 ⟨hs, decide_eq_true ?_⟩
    simpa [DfuMemSegment.contains, DfuMemSegment.is_contained_in] using hov
  · exact List.pairwise_map.2 (hsorted.filter _)

/-- C1 witness: the S3 layout, queried over its first two segments. -/
theorem claim1_witness :
    layoutS3.find_segments 134217728 134348799 =
      [⟨134217728, 134283264, 16384, 7⟩, ⟨134283264, 134348800, 65536, 7⟩] ∧
    List.Pairwise (· ≤ ·)
      ((layoutS3.find_segments 134217728 134348799).map DfuMemSegment.start_addr) :=
  ⟨by decide,
   (claim1_find_segments_overlap_ordered layoutS3 134217728 134348799
     (by decide) (by decide)).2.2⟩

/-- C1 counterexample: a parsed layout (u32 wrap-around in the second
segment) on which `find_segments` returns segments whose start addresses
are not in ascending order, refuting the claim's "ascending address
order" for arbitrary parsed layouts. -/
theorem claim1_counterexample :
    parse_memory_layout "@X/0x0/1*4294967295Bg,1*1Bg,1*1Bg" =
      some ⟨"X", [⟨0, 4294967295, 4294967295, 7⟩, ⟨4294967295, 0, 1, 7⟩, ⟨0, 1, 1, 7⟩]⟩ ∧
    ((⟨"X", [⟨0, 4294967295, 4294967295, 7⟩, ⟨4294967295, 0, 1, 7⟩,
        ⟨0, 1, 1, 7⟩]⟩ : DfuMemory).find_segments 0 1).map DfuMemSegment.start_addr =
      [0, 4294967295, 0] ∧
    ¬ List.Pairwise (· ≤ ·)
      (((⟨"X", [⟨0, 4294967295, 4294967295, 7⟩, ⟨4294967295, 0, 1, 7⟩,
        ⟨0, 1, 1, 7⟩]⟩ : DfuMemory).find_segments 0 1).map DfuMemSegment.start_addr) := by
  exact ⟨by decide, by decide, by decide⟩

/-- The head segment produced by the accumulation loop starts at the
running address. -/
theorem buildSegments_cons_start (raws : List RawSeg) (cur : Nat)
    (s0 : DfuMemSegment) (tl : List DfuMemSegment)
    (h : buildSegments cur raws = s0 :: tl) : s0.start_addr = cur := by
  cases raws with
  | nil => simp [buildSegments] at h
  | cons v vs =>
    simp only [buildSegments] at h
    cases h
    rfl

/-- The accumulation loop produces strictly contiguous segments. -/
theorem buildSegments_chain (raws : List RawSeg) :
    ∀ cur, List.Chain' (fun s t : DfuMemSegment => s.end_addr = t.start_addr)
      (buildSegments cur raws) := by
  induction raws with
  | nil => intro cur; simp [buildSegments]
  | cons v vs ih =>
    intro cur
    simp only [buildSegments]
    rcases hb : buildSegments ((cur + v.pagesCount * v.pageSize % U32M) % U32M) vs with
      _ | ⟨s1, tl⟩
    · simp
    · have hstart := buildSegments_cons_start _ _ _ _ hb
      have hch := ih ((cur + v.pagesCount * v.pageSize % U32M) % U32M)
      rw [hb] at hch
      exact List.chain'_cons.mpr ⟨hstart.symm, hch⟩

/-- C4 (amended): every layout returned by `parse_memory_layout` has a
non-empty segment list whose consecutive segments are strictly contiguous
(`segments[i].end_addr = segments[i+1].start_addr`) and whose first
segment starts at the parsed base address.  The further invariants
claimed — `page_size > 0`, divisibility of the segment length by the page
size, and ascending order — do not hold for every parsed layout (see the
counterexample). -/
theorem claim4_parse_contiguous (s : String) (m : DfuMemory)
    (h : parse_memory_layout s = some m) :
    m.segments ≠ [] ∧
    List.Chain' (fun a b : DfuMemSegment => a.end_addr = b.start_addr) m.segments ∧
    ∃ base, parsedBaseAddr s = some base ∧
      ∃ s0 tl, m.segments = s0 :: tl ∧ s0.start_addr = base := by
  unfold parse_memory_layout at h
  rcases hf : findSkeleton [] s.data with _ | ⟨pre, hex, rest0⟩
  · rw [hf] at h; exact absurd h (by simp)
  · rw [hf] at h
    simp only [] at h
    rcases hb : buildSegments (parseHexU32 hex)
        (scanSegments (rest0.takeWhile (fun c => c ≠ '\n'))) with _ | ⟨s0, tl⟩
    · rw [hb] at h; exact absurd h (by simp)
    · rw [hb] at h
      simp only [Option.some.injEq] at h
      subst h
      refine ⟨by simp, ?_, parseHexU32 hex, ?_, s0, tl, rfl, ?_⟩
      · have := buildSegments_chain
          (scanSegments (rest0.takeWhile (fun c => c ≠ '\n'))) (parseHexU32 hex)
        rw [hb] at this
        exact this
      · simp [parsedBaseAddr, hf]
      · exact buildSegments_cons_start _ _ _ _ hb

/-- C4 witness: the parser applied to the S3 interface string yields the
contiguous three-segment layout. -/
theorem claim4_witness :
    layoutS3.segments ≠ [] ∧
    List.Chain' (fun a b : DfuMemSegment => a.end_addr = b.start_addr) layoutS3.segments ∧
    ∃ base, parsedBaseAddr "@Internal Flash  /0x08000000/04*016Kg,01*064Kg,07*128Kg" = some base ∧
      ∃ s0 tl, layoutS3.segments = s0 :: tl ∧ s0.start_addr = base :=
  claim4_parse_contiguous "@Internal Flash  /0x08000000/04*016Kg,01*064Kg,07*128Kg"
    layoutS3 (by decide)

/-- C4 counterexample: a zero size field parses to a segment with
`page_size = 0` (refuting `page_size > 0`), and a size field whose
pages-times-size product wraps around u32 parses to a segment whose u32
length `end_addr ⊖ start_addr` is not divisible by its page size
(refuting the divisibility invariant). -/
theorem claim4_counterexample :
    parse_memory_layout "@X/0x0/1*0Bg" = some ⟨"X", [⟨0, 0, 0, 7⟩]⟩ ∧
    ¬ 0 < (⟨0, 0, 0, 7⟩ : DfuMemSegment).page_size ∧
    parse_memory_layout "@X/0x0/2*2147483649Bg" = some ⟨"X", [⟨0, 2, 2147483649, 7⟩]⟩ ∧
    ¬ (⟨0, 2, 2147483649, 7⟩ : DfuMemSegment).page_size ∣
        (((⟨0, 2, 2147483649, 7⟩ : DfuMemSegment).end_addr + U32M -
          (⟨0, 2, 2147483649, 7⟩ : DfuMemSegment).start_addr) % U32M) :=
  ⟨by decide, by decide, by decide, by decide⟩

/-- If the skeleton matches at no position of the string, the leftmost
search fails. -/
theorem findSkeleton_eq_none (l : List Char)
    (h : ∀ i, matchSkeleton (l.drop i) = none) :
    ∀ acc, findSkeleton acc l = none := by
  induction l with
  | nil => intro acc; rfl
  | cons c t ih =>
    intro acc
    have h0 := h 0
    simp only [List.drop_zero] at h0
    simp only [findSkeleton, h0]
    exact ih (fun i => by simpa using h (i + 1)) (c :: acc)

/-- C8 (amended): `parse_memory_layout` returns `None` for every ASCII
input string that contains the skeleton `/0x<hex-digits>(U)?/` at no
position (the outer regex cannot match).  The ASCII hypothesis scopes
the statement to where this embedding is exact: the source regex's `\d`
is Unicode `\p{Nd}`, so a non-ASCII string such as `"/0x٣/1*1Bg"` can
match the real outer regex (its hex capture then fails `from_str_radix`
and falls back to base 0) even though no ASCII-skeleton occurs.  The
claim's universal rejection of non-conforming input does not hold
either way: a partially matched string still produces a layout (see the
counterexample). -/
theorem claim8_malformed_none (s : String)
    (hascii : (s.data.all fun c => c.toNat ≤ 127) = true)
    (h : ((List.range (s.data.length + 1)).all
      fun i => (matchSkeleton (s.data.drop i)).isNone) = true) :
    parse_memory_layout s = none := by
  have hall : ∀ i, matchSkeleton (s.data.drop i) = none := by
    intro i
    rcases Nat.lt_or_ge i (s.data.length + 1) with hi | hi
    · have := List.all_eq_true.1 h i (List.mem_range.2 hi)
      exact Option.isNone_iff_eq_none.1 this
    · rw [List.drop_eq_nil_of_le (by omega)]
      rfl
  unfold parse_memory_layout
  rw [findSkeleton_eq_none s.data hall []]

/-- C8 witness: an ASCII string with no layout skeleton parses to
nothing. -/
theorem claim8_witness : parse_memory_layout "no DfuSe layout here" = none :=
  claim8_malformed_none "no DfuSe layout here" (by decide) (by decide)

/-- C8 counterexample: `"@X/0x0/1*1Bg,u"` does not conform to the spec
grammar (the segment list has a dangling `,u`), yet the parser returns a
layout: non-conforming input is not rejected. -/
theorem claim8_counterexample :
    specConforms "@X/0x0/1*1Bg,u" = false ∧
    parse_memory_layout "@X/0x0/1*1Bg,u" = some ⟨"X", [⟨0, 1, 1, 7⟩]⟩ :=
  ⟨by decide, by decide⟩

/-- C6: for every grammar type character `c` in `a..g` the parser stores
`mem_type = (c - 0x60) & 7` (the source computes `c & 7`, which agrees on
this range), the permission accessors read bits 0, 1 and 2 of `mem_type`,
and the S1 interface string parses to the single segment
`[0x5200201C, 0x5200209C)`, page size 128, `mem_type = 5`, which is
readable and writable but not erasable. -/
theorem claim6_permission_decoding :
    (∀ c : Char, 97 ≤ c.toNat → c.toNat ≤ 103 →
      memTypeOfChar c = (c.toNat - 96) &&& 7) ∧
    (∀ s : DfuMemSegment,
      (s.readable ↔ s.mem_type.testBit 0 = true) ∧
      (s.erasable ↔ s.mem_type.testBit 1 = true) ∧
      (s.writable ↔ s.mem_type.testBit 2 = true)) ∧
    parse_memory_layout "@Option Bytes   /0x5200201C/01*128 e" =
      some ⟨"Option Bytes", [⟨1375739932, 1375740060, 128, 5⟩]⟩ ∧
    (⟨1375739932, 1375740060, 128, 5⟩ : DfuMemSegment).readable ∧
    (⟨1375739932, 1375740060, 128, 5⟩ : DfuMemSegment).writable ∧
    ¬ (⟨1375739932, 1375740060, 128, 5⟩ : DfuMemSegment).erasable := by
  refine ⟨?_, ?_, by decide, by decide, by decide, by decide⟩
  · intro c h1 h2
    unfold memTypeOfChar
    generalize hn : c.toNat = n at h1 h2
    interval_cases n <;> decide
  · intro s
    refine ⟨?_, ?_, ?_⟩
    · have h := Nat.and_two_pow s.mem_type 0
      simp only [pow_zero, mul_one] at h
      unfold DfuMemSegment.readable
      rw [h]
      cases hb : s.mem_type.testBit 0 <;> simp
    · have h := Nat.and_two_pow s.mem_type 1
      simp only [pow_one] at h
      unfold DfuMemSegment.erasable
      rw [h]
      cases hb : s.mem_type.testBit 1 <;> simp
    · have h := Nat.and_two_pow s.mem_type 2
      unfold DfuMemSegment.writable
      rw [show (4 : Nat) = 2 ^ 2 from rfl, h]
      cases hb : s.mem_type.testBit 2 <;> simp

/-- C6 witness: the decoding equality applied at the character `e`, whose
value `(0x65 - 0x60) & 7` is 5. -/
theorem claim6_witness :
    memTypeOfChar 'e' = ('e'.toNat - 96) &&& 7 ∧ ('e'.toNat - 96) &&& 7 = 5 :=
  ⟨claim6_permission_decoding.1 'e' (by decide) (by decide), by decide⟩

/-- C5 (amended): `UF2BlockData::decode` returns the magic-check error
exactly on inputs that are not valid UF2 blocks.  The oversize bound is
the source's `UF2_MAX_PAYLOAD_SIZE = 512 - 32 = 480`, not the claim's
476: only for `payload_size` above 480 does decode return the error,
whose message is `"payload size too big (N)"` with the offending size
interpolated (not the bare `"payload size too big"` of the claim).  At
`payload_size` in 477..480 on a 512-byte block (generally: when the
extension slice's start `32 + payload_size` exceeds its end
`data.len() - 4`) decode panics in the slice instead.  On valid blocks
whose payload fits before the trailing magic and whose extension-tags
flag (bit 0x8000) is clear it succeeds.  (With the flag set, decoding
can also panic on a malformed extension area — see C10.) -/
theorem claim5_decode_errors (data : List Nat) :
    (is_uf2_block data = false →
      UF2BlockData.decode data = some (Except.error ⟨"magic values check failed"⟩)) ∧
    (is_uf2_block data = true → UF2_MAX_PAYLOAD_SIZE < extract_u32 data 16 →
      UF2BlockData.decode data = some (Except.error
        ⟨"payload size too big (" ++ toString (extract_u32 data 16) ++ ")"⟩)) ∧
    (is_uf2_block data = true → extract_u32 data 16 ≤ UF2_MAX_PAYLOAD_SIZE →
      data.length - 4 < 32 + extract_u32 data 16 →
      UF2BlockData.decode data = none) ∧
    (is_uf2_block data = true → extract_u32 data 16 ≤ UF2_MAX_PAYLOAD_SIZE →
      32 + extract_u32 data 16 ≤ data.length - 4 →
      extract_u32 data 8 &&& 0x8000 = 0 →
      ∃ b, UF2BlockData.decode data = some (Except.ok b)) := by
  refine ⟨?_, ?_, ?_, ?_⟩
  · intro h
    simp [UF2BlockData.decode, h]
  · intro h hgt
    simp [UF2BlockData.decode, h, hgt]
  · intro h hle hpanic
    simp [UF2BlockData.decode, h, Nat.not_lt.2 hle, hpanic]
  · intro h hle hfit hflag
    refine ⟨⟨extract_u32 data 8, extract_u32 data 12, extract_u32 data 20,
      extract_u32 data 24, extract_u32 data 28,
      (data.drop 32).take (extract_u32 data 16), []⟩, ?_⟩
    simp [UF2BlockData.decode, h, Nat.not_lt.2 hle, Nat.not_lt.2 hfit,
      decode_extensions, hflag]

set_option maxRecDepth 40000 in
/-- C5 witness: a concrete valid block with empty extension flag decodes
successfully. -/
theorem claim5_witness :
    is_uf2_block (mkUf2Block 0 4096 2 [7, 8]) = true ∧
    extract_u32 (mkUf2Block 0 4096 2 [7, 8]) 16 ≤ UF2_MAX_PAYLOAD_SIZE ∧
    ∃ b, UF2BlockData.decode (mkUf2Block 0 4096 2 [7, 8]) = some (Except.ok b) :=
  ⟨by decide, by decide,
   (claim5_decode_errors (mkUf2Block 0 4096 2 [7, 8])).2.2.2
     (by decide) (by decide) (by decide) (by decide)⟩

set_option maxRecDepth 40000 in
/-- C5 counterexample: at `payload_size = 477` — where the claim demands
`DecodeError("payload size too big")` — decode panics in the extension
slice `data[509..508]` (the source bound is `UF2_MAX_PAYLOAD_SIZE = 480`,
so the oversize check passes); at `payload_size = 481` the error does
fire but its message is `"payload size too big (481)"`, not the claimed
bare `"payload size too big"`; and a magic-valid block with the
extension flag set and a 3-byte extension area also panics instead of
returning any `UF2DecodeError`, refuting "otherwise it succeeds". -/
theorem claim5_counterexample :
    is_uf2_block (mkUf2Block 0 0 477 []) = true ∧
    extract_u32 (mkUf2Block 0 0 477 []) 16 = 477 ∧
    UF2BlockData.decode (mkUf2Block 0 0 477 []) = none ∧
    UF2BlockData.decode (mkUf2Block 0 0 481 []) =
      some (Except.error ⟨"payload size too big (481)"⟩) ∧
    (⟨"payload size too big (481)"⟩ : UF2DecodeError) ≠ ⟨"payload size too big"⟩ ∧
    is_uf2_block (mkUf2Block 32768 0 473 []) = true ∧
    extract_u32 (mkUf2Block 32768 0 473 []) 16 ≤ 476 ∧
    UF2BlockData.decode (mkUf2Block 32768 0 473 []) = none :=
  ⟨by decide, by decide, by decide, by decide, by decide, by decide, by decide,
   by decide⟩

/-- C9: `UF2RangeIterator::new` applied to the empty buffer panics (in
this embedding `none` is a panic): the all-chunks magic check passes
vacuously and `block_iter.next().unwrap()` unwraps `None`.  The
constructor neither returns a `UF2DecodeError` nor an empty iterator. -/
theorem claim9_new_empty_buffer_panics : UF2RangeIterator.new [] = none := by
  decide

set_option maxRecDepth 40000 in
/-- C10: with the `EXTENSION_TAGS_PRESENT` flag (0x8000) set, `decode` is
not total over magic-valid blocks: a block whose extension area leaves
fewer than 4 bytes at the scan offset panics in `extract_u32` (here
`payload_size = 474`, a 2-byte area), and a block whose nonzero header
word has a length byte below 4 panics in the payload slice
`data[offset+4 .. offset+length]` (here header `0x650D9D03`, length 3).
Both evaluate to `none` (panic), not to a `UF2DecodeError`. -/
theorem claim10_decode_extension_panics :
    is_uf2_block (mkUf2Block 32768 0 474 []) = true ∧
    UF2BlockData.decode (mkUf2Block 32768 0 474 []) = none ∧
    is_uf2_block (mkUf2Block 32768 0 0 [3, 157, 13, 101]) = true ∧
    UF2BlockData.decode (mkUf2Block 32768 0 0 [3, 157, 13, 101]) = none :=
  ⟨by decide, by decide, by decide, by decide⟩

/-- C7: `reboot(addr, data, reboot_addr)` issues the download (set
address, then DNLOAD wBlockNum 2), then `SET_ADDRESS(reboot_addr)`, then
a trailing empty DNLOAD wBlockNum 0 whose result is ignored, and
`leave()` issues a single trailing empty DNLOAD whose result is ignored:
both return `Ok` whenever the earlier steps succeed, whatever the
trailing DNLOAD's outcome, while an error in the download or in the
set-address step propagates. -/
theorem claim7_reboot_leave_trailing (env : Nat → Option DfuError)
    (addr : Nat) (data : List Nat) (reboot_addr : Nat) :
    (env 0 = none → env 1 = none → env 2 = none →
      DfuConnection.reboot env ⟨0, []⟩ addr data reboot_addr =
        (Except.ok (), ⟨4, [(0, 0x21 :: le32 addr), (2, data),
          (0, 0x21 :: le32 reboot_addr), (0, [])]⟩)) ∧
    (∀ e, env 0 = some e →
      (DfuConnection.reboot env ⟨0, []⟩ addr data reboot_addr).1 = Except.error e) ∧
    (∀ e, env 0 = none → env 1 = some e →
      (DfuConnection.reboot env ⟨0, []⟩ addr data reboot_addr).1 = Except.error e) ∧
    (∀ e, env 0 = none → env 1 = none → env 2 = some e →
      (DfuConnection.reboot env ⟨0, []⟩ addr data reboot_addr).1 = Except.error e) ∧
    ((DfuConnection.leave env ⟨0, []⟩).1 = Except.ok () ∧
      (DfuConnection.leave env ⟨0, []⟩).2.log = [(0, [])]) := by
  refine ⟨?_, ?_, ?_, ?_, rfl, rfl⟩
  · intro h0 h1 h2
    simp [DfuConnection.reboot, DfuConnection.download, dfuse_set_address,
      dfu_dnload, h0, h1, h2]
  · intro e h0
    simp [DfuConnection.reboot, DfuConnection.download, dfuse_set_address,
      dfu_dnload, h0]
  · intro e h0 h1
    simp [DfuConnection.reboot, DfuConnection.download, dfuse_set_address,
      dfu_dnload, h0, h1]
  · intro e h0 h1 h2
    simp [DfuConnection.reboot, DfuConnection.download, dfuse_set_address,
      dfu_dnload, h0, h1, h2]

/-- C7 witness: an environment whose fourth dnload (the trailing one)
times out still lets `reboot` and `leave` return `Ok`. -/
theorem claim7_witness :
    DfuConnection.reboot (fun i => if i = 3 then some DfuError.Timeout else none)
      ⟨0, []⟩ 5 [1, 2] 9 =
      (Except.ok (), ⟨4, [(0, [0x21, 5, 0, 0, 0]), (2, [1, 2]),
        (0, [0x21, 9, 0, 0, 0]), (0, [])]⟩) ∧
    (fun i => if i = 3 then some DfuError.Timeout else none : Nat → Option DfuError) 3 =
      some DfuError.Timeout :=
  ⟨by
    have h := (claim7_reboot_leave_trailing
      (fun i => if i = 3 then some DfuError.Timeout else none) 5 [1, 2] 9).1
      (by decide) (by decide) (by decide)
    simpa [le32] using h,
   by decide⟩

/-- A successful decode implies the block passed the magic check and its
payload field is the `data[32 .. 32+payload_size]` slice. -/
theorem decode_ok_shape {b : List Nat} {blk : UF2BlockData}
    (h : UF2BlockData.decode b = some (Except.ok blk)) :
    is_uf2_block b = true ∧ blk.payload = blockPayload b := by
  unfold UF2BlockData.decode at h
  by_cases hm : is_uf2_block b
  · refine ⟨hm, ?_⟩
    simp only [hm, not_true, if_neg, ite_false, Bool.not_true] at h
    by_cases hp : extract_u32 b 16 > UF2_MAX_PAYLOAD_SIZE
    · simp [hp] at h
    · simp only [hp, ite_false] at h
      by_cases hsl : b.length - 4 < 32 + extract_u32 b 16
      · simp [hsl] at h
      · simp only [hsl, ite_false] at h
        rcases hext : decode_extensions (extract_u32 b 8)
            ((b.drop (32 + extract_u32 b 16)).take (b.length - 4 - (32 + extract_u32 b 16))) with
          _ | exts
        · rw [hext] at h; simp at h
        · rw [hext] at h
          simp only [Option.some.injEq, Except.ok.injEq] at h
          rw [← h]
          rfl
  · simp [hm] at h

/-- Iterating the range iterator over blocks that all decode successfully
never drops bytes: the emitted payloads concatenate to the pending
payload followed by the payloads of the remaining blocks. -/
theorem runIter_concat (bs : List (List Nat)) :
    ∀ st : IterState,
      (∀ b ∈ bs, ∃ blk, UF2BlockData.decode b = some (Except.ok blk)) →
      ∃ rs, runIter st bs = some rs ∧
        (rs.map UF2AddressRange.payload).flatten =
          st.payload ++ (bs.map blockPayload).flatten := by
  induction bs with
  | nil =>
    intro st _
    refine ⟨if st.payload.isEmpty then [] else [st.make_range], rfl, ?_⟩
    by_cases hp : st.payload.isEmpty
    · simp [hp, List.isEmpty_iff.1 hp]
    · simp [hp, IterState.make_range]
  | cons b bs ih =>
    intro st hdec
    obtain ⟨blk, hb⟩ := hdec b (List.mem_cons_self b bs)
    have hpay := (decode_ok_shape hb).2
    have hrest : ∀ x ∈ bs, ∃ blk, UF2BlockData.decode x = some (Except.ok blk) :=
      fun x hx => hdec x (List.mem_cons_of_mem b hx)
    simp only [runIter, hb]
    by_cases hne : st.end_address ≠ blk.flash_address
    · obtain ⟨rs, hrs, hcat⟩ := ih (resetState blk) hrest
      rw [if_pos hne, hrs]
      refine ⟨st.make_range :: rs, rfl, ?_⟩
      simp only [List.map_cons, List.flatten_cons, hcat, IterState.make_range,
        resetState, List.map_cons, List.flatten_cons, hpay]
    · obtain ⟨rs, hrs, hcat⟩ := ih
        ⟨st.start_address, (st.end_address + blk.payload.length) % U32M,
          st.payload ++ blk.payload, st.reboot_address⟩ hrest
      rw [if_neg hne, hrs]
      refine ⟨rs, rfl, ?_⟩
      simp only [hcat, List.map_cons, List.flatten_cons, hpay, List.append_assoc]

/-- For a non-empty buffer the chunk list is the first 512 bytes followed
by the chunking of the rest. -/
theorem uf2Chunks_cons (buf : List Nat) (h : buf ≠ []) :
    ∃ rest, uf2Chunks buf = buf.take 512 :: rest ∧
      rest = (uf2Chunks buf).drop 1 := by
  cases buf with
  | nil => exact absurd rfl h
  | cons x t =>
    refine ⟨chunksAux t.length ((x :: t).drop 512), ?_, ?_⟩
    · simp [uf2Chunks, chunksAux]
    · simp [uf2Chunks, chunksAux]

/-- C3 (amended): for every non-empty buffer all of whose 512-byte chunks
decode successfully (valid magics, a payload that fits before the
trailing magic — `payload_size ≤ 476` on a 512-byte block — and a
well-formed extension area when the extension flag is set), the iterator
runs to completion and the concatenation of the payloads of the yielded
ranges equals the concatenation, in order, of the payloads of all
blocks.  (The claim's weaker hypothesis — chunks that merely pass
`is_uf2_block` — is insufficient: see the counterexample.) -/
theorem claim3_range_payload_concat (buf : List Nat) (hne : buf ≠ [])
    (hdec : ∀ b ∈ uf2Chunks buf, ∃ blk, UF2BlockData.decode b = some (Except.ok blk)) :
    ∃ rs, uf2Ranges buf = some (Except.ok rs) ∧
      (rs.map UF2AddressRange.payload).flatten =
        ((uf2Chunks buf).map blockPayload).flatten := by
  obtain ⟨rest, hch, hrest⟩ := uf2Chunks_cons buf hne
  have hhead : buf.take 512 ∈ uf2Chunks buf := by rw [hch]; exact List.mem_cons_self _ _
  obtain ⟨blk0, hb0⟩ := hdec _ hhead
  have hall : (uf2Chunks buf).all is_uf2_block = true := by
    refine List.all_eq_true.2 fun b hb => ?_
    obtain ⟨blk, hdb⟩ := hdec b hb
    exact (decode_ok_shape hdb).1
  have hrestdec : ∀ b ∈ rest, ∃ blk, UF2BlockData.decode b = some (Except.ok blk) := by
    intro b hb
    exact hdec b (by rw [hch]; exact List.mem_cons_of_mem _ hb)
  obtain ⟨rs, hrs, hcat⟩ := runIter_concat rest (resetState blk0) hrestdec
  refine ⟨rs, ?_, ?_⟩
  · unfold uf2Ranges UF2RangeIterator.new
    rw [hch]
    simp only [hall, Bool.not_true, ite_false, if_neg, hb0]
    simp only [← hch, hrest.symm, hrs]
    simp [hall, hrs]
  · rw [hcat, hch]
    simp [resetState, (decode_ok_shape hb0).2]

set_option maxRecDepth 40000 in
/-- C3 witness: a single-block buffer with payload `[7, 8]`. -/
theorem claim3_witness :
    ∃ rs, uf2Ranges (mkUf2Block 0 4096 2 [7, 8]) = some (Except.ok rs) ∧
      (rs.map UF2AddressRange.payload).flatten =
        ((uf2Chunks (mkUf2Block 0 4096 2 [7, 8])).map blockPayload).flatten :=
  claim3_range_payload_concat (mkUf2Block 0 4096 2 [7, 8]) (by decide)
    (by
      intro b hb
      have hc : uf2Chunks (mkUf2Block 0 4096 2 [7, 8]) = [mkUf2Block 0 4096 2 [7, 8]] := by
        decide
      rw [hc] at hb
      have hb2 : b = mkUf2Block 0 4096 2 [7, 8] := by simpa using hb
      subst hb2
      exact ⟨⟨0, 4096, 0, 0, 0, [7, 8], []⟩, by decide⟩)

set_option maxRecDepth 100000 in
/-- C3 counterexample: a two-block buffer accepted by
`UF2RangeIterator::new` (every chunk passes `is_uf2_block`) whose second
block has `payload_size = 481 > UF2_MAX_PAYLOAD_SIZE`: the mid-stream
decode error makes `next` return `None` through `.ok()?`, the pending
first range is dropped, and the iterator yields nothing although the
first block carries payload `[1, 2, 3, 4]` — so the concatenation
equality of the claim fails.  A second buffer whose second block has a
malformed extension area (extension flag set, `payload_size = 473`)
makes the iteration panic instead. -/
theorem claim3_counterexample :
    ((uf2Chunks (mkUf2Block 0 4096 4 [1, 2, 3, 4] ++ mkUf2Block 0 8192 481 [])).all
      is_uf2_block = true) ∧
    uf2Ranges (mkUf2Block 0 4096 4 [1, 2, 3, 4] ++ mkUf2Block 0 8192 481 []) =
      some (Except.ok []) ∧
    (((uf2Chunks (mkUf2Block 0 4096 4 [1, 2, 3, 4] ++ mkUf2Block 0 8192 481 [])).map
      blockPayload).flatten ≠ []) ∧
    uf2Ranges (mkUf2Block 0 4096 4 [1, 2, 3, 4] ++ mkUf2Block 32768 8192 473 []) =
      none :=
  ⟨by decide, by decide, by decide, by decide⟩

/-- Characterization of the page count: `i` indexes an emitted page iff
`i * p` has not yet covered the clipped span. -/
theorem lt_divCeil_iff {p D i : Nat} (hp : 0 < p) : i < divCeil D p ↔ i * p < D := by
  unfold divCeil
  constructor
  · intro h
    have h1 : i + 1 ≤ (D + p - 1) / p := h
    have h2 : (i + 1) * p ≤ D + p - 1 := (Nat.le_div_iff_mul_le hp).1 h1
    have h3 : (i + 1) * p = i * p + p := by ring
    omega
  · intro h
    have h2 : (i + 1) * p ≤ D + p - 1 := by
      have h3 : (i + 1) * p = i * p + p := by ring
      omega
    exact Nat.lt_of_lt_of_le (Nat.lt_succ_self i) ((Nat.le_div_iff_mul_le hp).2 h2)

/-- In a length divisible by `p`, a multiple of `p` strictly below the
length leaves room for one more page. -/
theorem mul_succ_le_of_dvd {p D m : Nat} (hp : 0 < p) (hd : p ∣ D)
    (h : m * p < D) : (m + 1) * p ≤ D := by
  obtain ⟨q, rfl⟩ := hd
  have hmq : m < q := by
    rcases Nat.lt_or_ge m q with h1 | h1
    · exact h1
    · exfalso
      have h2 : q * p ≤ m * p := Nat.mul_le_mul_right p h1
      rw [Nat.mul_comm p q] at h
      omega
  calc (m + 1) * p ≤ q * p := Nat.mul_le_mul_right p hmq
    _ = p * q := Nat.mul_comm q p

/-- Every address emitted for a segment is a page boundary lying inside
the segment. -/
theorem erasePageAddrs_bounds (s : DfuMemSegment) (a b x : Nat)
    (hps : 0 < s.page_size) (hwf : s.start_addr ≤ s.end_addr)
    (hdvd : s.page_size ∣ (s.end_addr - s.start_addr))
    (hx : x ∈ s.erasePageAddrs a b) :
    s.start_addr ≤ x ∧ x + s.page_size ≤ s.end_addr ∧
      s.page_size ∣ (x - s.start_addr) := by
  unfold DfuMemSegment.erasePageAddrs DfuMemSegment.get_erase_pages at hx
  simp only [List.mem_map, List.mem_range] at hx
  obtain ⟨i, hi, rfl⟩ := hx
  set es := max a s.start_addr with hes
  set ce := min b s.end_addr with hce
  have hses : s.start_addr ≤ es := le_max_right a s.start_addr
  have hcee : ce ≤ s.end_addr := min_le_right b s.end_addr
  have hik : i * s.page_size < ce - es := (lt_divCeil_iff hps).1 hi
  unfold DfuMemSegment.alignDown
  set k := (es - s.start_addr) / s.page_size with hk
  have hkle : k * s.page_size ≤ es - s.start_addr := Nat.div_mul_le_self _ _
  have hsum : (k + i) * s.page_size < s.end_addr - s.start_addr := by
    have h1 : (k + i) * s.page_size = k * s.page_size + i * s.page_size := by ring
    omega
  have hstep : (k + i + 1) * s.page_size ≤ s.end_addr - s.start_addr :=
    mul_succ_le_of_dvd hps hdvd hsum
  have h2 : (k + i) * s.page_size = k * s.page_size + i * s.page_size := by ring
  have h3 : (k + i + 1) * s.page_size =
    k * s.page_size + i * s.page_size + s.page_size := by ring
  have h4 : s.page_size * (k + i) = k * s.page_size + i * s.page_size := by ring
  refine ⟨by omega, by omega, ⟨k + i, by omega⟩⟩

/-- The addresses emitted for one segment are strictly ascending. -/
theorem erasePageAddrs_pairwise (s : DfuMemSegment) (a b : Nat)
    (hps : 0 < s.page_size) :
    List.Pairwise (· < ·) (s.erasePageAddrs a b) := by
  unfold DfuMemSegment.erasePageAddrs
  refine List.pairwise_map.2 ?_
  refine (List.pairwise_lt_range _).imp ?_
  intro i j hij
  exact Nat.add_lt_add_left (Nat.mul_lt_mul_of_lt_of_le hij (le_refl _) hps) _

/-- Strict contiguity plus per-segment well-formedness yields the
interval order on the segment list. -/
theorem chain_contig_pairwise :
    ∀ {l : List DfuMemSegment},
      (∀ s ∈ l, s.start_addr ≤ s.end_addr) →
      List.Chain' (fun s t => s.end_addr = t.start_addr) l →
      List.Pairwise (fun s t => s.end_addr ≤ t.start_addr) l := by
  intro l
  induction l with
  | nil => intro _ _; exact List.Pairwise.nil
  | cons x xs ih =>
    intro hwf hch
    cases xs with
    | nil => exact List.pairwise_singleton _ _
    | cons y ys =>
      have hxy : x.end_addr = y.start_addr := (List.chain'_cons.1 hch).1
      have hp := ih (fun s hs => hwf s (List.mem_cons_of_mem x hs))
        (List.chain'_cons.1 hch).2
      refine List.Pairwise.cons ?_ hp
      intro t ht
      rcases List.mem_cons.1 ht with rfl | ht
      · exact le_of_eq hxy
      · have hyt := (List.pairwise_cons.1 hp).1 t ht
        have hy := hwf y (List.mem_cons_of_mem x (List.mem_cons_self y ys))
        omega

/-- C2: the erase plan (spec-modelled layout-wide `get_erase_pages` over
the in-source per-segment helper) emits, for each overlapping segment,
`ceil((clip_end − clip_start) / page_size)` pages starting at
`max(start, segment.start_addr)` rounded down to a page boundary, and the
concatenated list over all overlapping segments is strictly ascending,
every address being a page boundary lying inside the segment covering
it.  Hypotheses: the request is a well-formed range and the layout
satisfies the documented invariants (positive page size, page-aligned
segment length, strict contiguity). -/
theorem claim2_erase_pages_plan (m : DfuMemory) (a b : Nat) (hab : a ≤ b)
    (hwf : ∀ s ∈ m.segments, 0 < s.page_size ∧ s.start_addr ≤ s.end_addr ∧
      s.page_size ∣ (s.end_addr - s.start_addr))
    (hchain : List.Chain' (fun s t : DfuMemSegment => s.end_addr = t.start_addr)
      m.segments) :
    List.Pairwise (· < ·) (m.get_erase_pages a b) ∧
    (∀ x ∈ m.get_erase_pages a b, ∃ s, s ∈ m.segments ∧
      s.start_addr ≤ x ∧ x + s.page_size ≤ s.end_addr ∧
      s.page_size ∣ (x - s.start_addr)) ∧
    (∀ s ∈ m.find_segments a b,
      (s.erasePageAddrs a b).length =
        divCeil (min b s.end_addr - max a s.start_addr) s.page_size ∧
      ∀ y ∈ (s.erasePageAddrs a b).head?, y = s.alignDown (max a s.start_addr)) := by
  have hsub : ∀ s ∈ m.find_segments a b, s ∈ m.segments :=
    fun s hs => (List.mem_filter.1 hs).1
  have hints : List.Pairwise (fun s t : DfuMemSegment => s.end_addr ≤ t.start_addr)
      (m.find_segments a b) :=
    (chain_contig_pairwise (fun s hs => (hwf s hs).2.1) hchain).filter _
  refine ⟨?_, ?_, ?_⟩
  · unfold DfuMemory.get_erase_pages
    rw [List.pairwise_flatten]
    constructor
    · intro l hl
      obtain ⟨s, hs, rfl⟩ := List.mem_map.1 hl
      exact erasePageAddrs_pairwise s a b (hwf s (hsub s hs)).1
    · rw [List.pairwise_map]
      refine hints.imp_of_mem ?_
      intro s t hs ht hst x hx y hy
      obtain ⟨hps, hse, hdv⟩ := hwf s (hsub s hs)
      obtain ⟨hpt, hte, hdt⟩ := hwf t (hsub t ht)
      have hxb := erasePageAddrs_bounds s a b x hps hse hdv hx
      have hyb := erasePageAddrs_bounds t a b y hpt hte hdt hy
      omega
  · intro x hx
    unfold DfuMemory.get_erase_pages at hx
    rw [List.mem_flatten] at hx
    obtain ⟨l, hl, hxl⟩ := hx
    obtain ⟨s, hs, rfl⟩ := List.mem_map.1 hl
    obtain ⟨hps, hse, hdv⟩ := hwf s (hsub s hs)
    exact ⟨s, hsub s hs, erasePageAddrs_bounds s a b x hps hse hdv hxl⟩
  · intro s hs
    constructor
    · simp [DfuMemSegment.erasePageAddrs, DfuMemSegment.get_erase_pages]
    · intro y hy
      simp only [DfuMemSegment.erasePageAddrs, DfuMemSegment.get_erase_pages] at hy
      rcases hn : divCeil (min b s.end_addr - max a s.start_addr) s.page_size with _ | n
      · simp only [hn, List.range_zero, List.map_nil, List.head?_nil] at hy
        cases hy
      · rw [hn, List.range_succ_eq_map] at hy
        simp only [List.map_cons, List.head?_cons, Option.mem_def,
          Option.some.injEq] at hy
        omega

/-- C2 witness: spec scenario S7 — on the S2 layout the plan for
`[0x08000000, 0x08003FFF]` is the two 8-KiB pages `0x08000000` and
`0x08002000`, and the theorem's conclusions hold there. -/
theorem claim2_witness :
    layoutS2.get_erase_pages 134217728 134234111 = [134217728, 134225920] ∧
    List.Pairwise (· < ·) (layoutS2.get_erase_pages 134217728 134234111) ∧
    (∀ x ∈ layoutS2.get_erase_pages 134217728 134234111, ∃ s, s ∈ layoutS2.segments ∧
      s.start_addr ≤ x ∧ x + s.page_size ≤ s.end_addr ∧
      s.page_size ∣ (x - s.start_addr)) :=
  ⟨by decide,
   (claim2_erase_pages_plan layoutS2 134217728 134234111 (by decide)
     (by decide) (by simp [layoutS2])).1,
   (claim2_erase_pages_plan layoutS2 134217728 134234111 (by decide)
     (by decide) (by simp [layoutS2])).2.1⟩
